import Mathlib

/-!
Verification of the mapto3d geometric mesh-synthesis core.

Shallow embedding of `src/geometry/projection.rs`, `src/geometry/scaling.rs`,
`src/geometry/simplify.rs`, `src/mesh/triangulation.rs`, `src/mesh/ribbon.rs`,
`src/mesh/builder.rs` and `src/mesh/validation.rs`.

Modelling conventions:
* Rust `f64`/`f32` arithmetic is modelled over `ℚ` wherever the code only
  adds, subtracts, multiplies, divides and compares, so that every definition
  is executable.  The mesh-validation module genuinely depends on square
  roots (areas and unit normals), so it is modelled over `ℝ` with
  `Real.sqrt`; there a value being "finite" is trivially true (the real
  numbers have no NaN/Inf), which is recorded in the corresponding
  definitions.
* `f32::sqrt` inside the ribbon extruder and the triangle constructor only
  feeds coordinate values, never control flow that the verified claims
  depend on; it is passed in as an explicit function parameter `s : ℚ → ℚ`.
* The repository delegates polygon triangulation to the external `earcutr`
  crate and polyline simplification to the external `geo` crate; those two
  algorithms are not part of the repository sources and are modelled from
  the specification (ear clipping, Douglas-Peucker), as marked on their
  definitions.
-/

namespace Mapto3d

/-! ## Projection (`src/geometry/projection.rs`)

`Projector::new` precomputes the meters-per-degree factors with WGS84
trigonometry; the claims quantify over every projector, i.e. over arbitrary
precomputed field values, so the structure carries the fields and
`project` is translated from the source. -/

namespace Projection

/-- The `Projector` struct of `projection.rs` (fields as in the source). -/
structure Projector where
  center_lat : ℚ
  center_lon : ℚ
  meters_per_lon_degree : ℚ
  meters_per_lat_degree : ℚ
  utm_zone : ℕ

/-- `Projector::project`: local tangent-plane linear approximation. -/
def Projector.project (p : Projector) (lat lon : ℚ) : ℚ × ℚ :=
  let delta_lon := lon - p.center_lon
  let delta_lat := lat - p.center_lat
  let x := delta_lon * p.meters_per_lon_degree
  let y := delta_lat * p.meters_per_lat_degree
  (x, y)

/-- `Projector::project_points`: elementwise projection. -/
def Projector.project_points (p : Projector) (points : List (ℚ × ℚ)) :
    List (ℚ × ℚ) :=
  points.map fun q => p.project q.1 q.2

end Projection

/-! ## Bounds and Scaler (`src/geometry/scaling.rs`) -/

namespace Scaling

/-- The `Bounds` struct: axis-aligned bounding box in meters. -/
structure Bounds where
  min_x : ℚ
  max_x : ℚ
  min_y : ℚ
  max_y : ℚ

/-- `Bounds::width`. -/
def Bounds.width (b : Bounds) : ℚ := b.max_x - b.min_x

/-- `Bounds::height`. -/
def Bounds.height (b : Bounds) : ℚ := b.max_y - b.min_y

/-- The `Scaler` struct: meters → millimeters affine transform. -/
structure Scaler where
  scale : ℚ
  offset_x : ℚ
  offset_y : ℚ
  target_mm : ℚ

/-- `Scaler::from_bounds_with_margin`, translated line by line. -/
def Scaler.from_bounds_with_margin (bounds : Bounds) (target_mm : ℚ)
    (bottom_margin_mm : ℚ) : Scaler :=
  let width := bounds.width
  let height := bounds.height
  let usable_height := target_mm - bottom_margin_mm
  let max_dim := max width height
  let scale := if max_dim > 0 then usable_height / max_dim else 1
  let scaled_width := width * scale
  let scaled_height := height * scale
  let offset_x := (target_mm - scaled_width) / 2 - bounds.min_x * scale
  let offset_y :=
    bottom_margin_mm + (usable_height - scaled_height) / 2 - bounds.min_y * scale
  ⟨scale, offset_x, offset_y, target_mm⟩

/-- `Scaler::from_bounds` (zero bottom margin). -/
def Scaler.from_bounds (bounds : Bounds) (target_mm : ℚ) : Scaler :=
  Scaler.from_bounds_with_margin bounds target_mm 0

/-- The `Scaler::scale` method (renamed: the field is already called `scale`).
The source's final `as f32` narrowing only reduces precision for STL output
and is modelled as the identity. -/
def Scaler.scale_point (s : Scaler) (x y : ℚ) : ℚ × ℚ :=
  let scaled_x := x * s.scale + s.offset_x
  let scaled_y := y * s.scale + s.offset_y
  (scaled_x, scaled_y)

end Scaling

/-! ## Simplifier (`src/geometry/simplify.rs`)

`simplify_polyline` delegates the actual reduction to the external `geo`
crate's `Simplify` (Douglas-Peucker); that algorithm is not part of the
repository sources and is modelled from the specification below.  The
wrappers (`< 4` early return, polygon safety net) are translated from the
source. -/

namespace Simplify

/-- A 2D point, `(f64, f64)` in the source. -/
abbrev Pt := ℚ × ℚ

/-- Squared Euclidean distance between two points. -/
def sqDist (p q : Pt) : ℚ := (p.1 - q.1) ^ 2 + (p.2 - q.2) ^ 2

/-- Modelled from the spec: squared perpendicular deviation of `p` from the
segment `a`-`b` (§4.3, "maximum-perpendicular-deviation reduction"); for a
degenerate segment it is the squared distance to `a`.  This is the quantity
whose square root the `geo` crate's Douglas-Peucker compares with the
tolerance. -/
def perpDevSq (a b p : Pt) : ℚ :=
  if a = b then sqDist p a
  else
    ((b.1 - a.1) * (p.2 - a.2) - (b.2 - a.2) * (p.1 - a.1)) ^ 2 / sqDist a b

/-- Decides `sqrt d2 > eps` exactly, using only rational arithmetic. -/
def exceeds (d2 : ℚ) (eps : ℚ) : Bool :=
  decide (eps < 0) || decide (eps ^ 2 < d2)

/-- Splits the interior point list at its first point of maximum
perpendicular deviation from the segment `a`-`b`; `none` iff the list is
empty. -/
def splitAtMax (a b : Pt) : List Pt → Option (List Pt × Pt × List Pt)
  | [] => none
  | p :: rest =>
    match splitAtMax a b rest with
    | none => some ([], p, [])
    | some (l, q, r) =>
      if perpDevSq a b q > perpDevSq a b p then some (p :: l, q, r)
      else some ([], p, rest)

/-- Modelled from the spec: the Douglas-Peucker recursion (§4.3) between the
anchors `a` and `b` over the interior points `mid`.  If the maximum
deviation exceeds the tolerance, recurse on both halves around the farthest
point, otherwise keep only the anchors.  `fuel` bounds the recursion depth;
callers pass `mid.length`, which always suffices because each recursive
call strictly shrinks the interior list. -/
def dpFuel : ℕ → Pt → List Pt → Pt → ℚ → List Pt
  | 0, a, _, b, _ => [a, b]
  | fuel + 1, a, mid, b, eps =>
    match splitAtMax a b mid with
    | none => [a, b]
    | some (l, q, r) =>
      if exceeds (perpDevSq a b q) eps then
        dpFuel fuel a l q eps ++ (dpFuel fuel q r b eps).tail
      else [a, b]

/-- Modelled from the spec: Douglas-Peucker over a whole polyline (the `geo`
crate's `Simplify::simplify`, not part of the repository sources): the first
and last points are the anchors, the rest the interior. -/
def rdp (ps : List Pt) (eps : ℚ) : List Pt :=
  match ps with
  | [] => []
  | [p] => [p]
  | a :: rest => dpFuel rest.dropLast.length a rest.dropLast (rest.getLastD a) eps

/-- The source maps `(lat, lon)` into `geo::coord { x: lon, y: lat }` and
back; modelled as a component swap on both sides. -/
def swap (p : Pt) : Pt := (p.2, p.1)

/-- `simplify_polyline` from `simplify.rs`. -/
def simplify_polyline (points : List Pt) (epsilon : ℚ) : List Pt :=
  if points.length < 4 then points
  else ((rdp (points.map swap) epsilon).map swap)

/-- `simplify_polygon` from `simplify.rs`. -/
def simplify_polygon (outer : List Pt) (epsilon : ℚ) : List Pt :=
  if outer.length < 5 then outer
  else
    let simplified := simplify_polyline outer epsilon
    if simplified.length < 4 then outer else simplified

end Simplify

/-! ## Triangulator (`src/mesh/triangulation.rs`)

`triangulate_polygon` builds a combined vertex buffer (outer ring first,
then each hole, with a parallel list of hole start indices) and calls the
external `earcutr` crate's `earcut`.  That algorithm is not part of the
repository sources; it is modelled from the specification (§4.4: ear
clipping over the combined buffer, best-effort, possibly empty output). -/

namespace Triangulation

/-- A 2D point of the combined vertex buffer. -/
abbrev Pt := ℚ × ℚ

/-- Z component of the cross product `(a − o) × (b − o)`. -/
def cross2 (o a b : Pt) : ℚ :=
  (a.1 - o.1) * (b.2 - o.2) - (a.2 - o.2) * (b.1 - o.1)

/-- Twice the signed (shoelace) area of a ring. -/
def signedAreaDoubled (ps : List Pt) : ℚ :=
  match ps with
  | [] => 0
  | p0 :: _ =>
    ((ps.zip (ps.drop 1 ++ [p0])).map fun pq =>
      pq.1.1 * pq.2.2 - pq.2.1 * pq.1.2).sum

/-- Vertex lookup in the combined buffer. -/
def vtx (vs : List Pt) (i : ℕ) : Pt := vs.getD i (0, 0)

/-- Strict interior test against a CCW triangle `a b c`. -/
def strictlyInside (a b c p : Pt) : Bool :=
  decide (0 < cross2 a b p) && decide (0 < cross2 b c p) &&
    decide (0 < cross2 c a p)

/-- Modelled from the spec: position `j` of the index cycle `idxs` is an
ear when its corner is convex and no other polygon vertex lies strictly
inside the corner triangle (glossary "ear clipping"). -/
def isEar (vs : List Pt) (idxs : List ℕ) (j : ℕ) : Bool :=
  let n := idxs.length
  let ia := idxs.getD ((j + n - 1) % n) 0
  let ib := idxs.getD j 0
  let ic := idxs.getD ((j + 1) % n) 0
  let a := vtx vs ia
  let b := vtx vs ib
  let c := vtx vs ic
  decide (0 < cross2 a b c) &&
    idxs.all fun i =>
      (i == ia) || (i == ib) || (i == ic) || !(strictlyInside a b c (vtx vs i))

/-- First ear position of the cycle, if any. -/
def findEar (vs : List Pt) (idxs : List ℕ) : Option ℕ :=
  (List.range idxs.length).find? (isEar vs idxs)

/-- Modelled from the spec: the ear-clipping loop (§4.4).  Repeatedly emits
an ear triangle and removes its tip until only one triangle remains;
degenerate or non-simple input for which no ear exists yields a partial or
empty result ("best-effort, not a fatal condition").  `fuel` bounds the
iteration count; callers pass the cycle length, which suffices because
every step removes one index. -/
def clipLoop (vs : List Pt) : ℕ → List ℕ → List ℕ
  | 0, _ => []
  | fuel + 1, idxs =>
    if idxs.length < 3 then []
    else if idxs.length == 3 then idxs
    else
      match findEar vs idxs with
      | none => []
      | some j =>
        let n := idxs.length
        let ia := idxs.getD ((j + n - 1) % n) 0
        let ib := idxs.getD j 0
        let ic := idxs.getD ((j + 1) % n) 0
        ia :: ib :: ic :: clipLoop vs fuel (idxs.eraseIdx j)

/-- Modelled from the spec: the `earcutr` crate's `earcut` entry point over
the combined buffer.  The outer ring is the buffer prefix up to the first
hole start (the whole buffer when there are no holes), normalised to CCW
orientation; hole bridging is underdetermined by the spec and the
best-effort model clips the outer ring. -/
def earcut (vs : List Pt) (holeIdx : List ℕ) : List ℕ :=
  let outerLen := holeIdx.headD vs.length
  let ring0 := List.range outerLen
  let ring :=
    if signedAreaDoubled (vs.take outerLen) < 0 then ring0.reverse else ring0
  clipLoop vs ring.length ring

/-- `triangulate_polygon` from `triangulation.rs`: the `< 3` early return,
then the combined buffer and hole-start list exactly as the source builds
them (each hole start is the buffer length just before that hole is
appended), passed to `earcut`. -/
def triangulate_polygon (outer : List Pt) (holes : List (List Pt)) :
    List ℕ :=
  if outer.length < 3 then []
  else
    let acc :=
      holes.foldl (fun acc hole => (acc.1 ++ hole, acc.2 ++ [acc.1.length]))
        (outer, ([] : List ℕ))
    earcut acc.1 acc.2

end Triangulation

/-! ## Ribbon extrusion (`src/mesh/ribbon.rs` and `src/mesh/builder.rs`)

`f32::sqrt` appears in `normalize` (unit tangents) and in
`Triangle::new`'s normal computation; both only feed coordinate values.
It is passed in as an explicit parameter `s : ℚ → ℚ`, and the verified
claims (triangle counts) hold for every choice of `s`. -/

namespace Ribbon

/-- A 2D point, `(f32, f32)` in the source. -/
abbrev Pt := ℚ × ℚ

/-- A 3D vertex `[f32; 3]`. -/
structure Vec3 where
  x : ℚ
  y : ℚ
  z : ℚ

/-- The `Triangle` struct of `builder.rs`. -/
structure Triangle where
  v0 : Vec3
  v1 : Vec3
  v2 : Vec3
  normal : Vec3

/-- `calculate_normal` from `builder.rs` (cross product of the edge
vectors, normalized with `s` standing for `f32::sqrt`, with the `+Z`
fallback for degenerate triangles). -/
def calculate_normal (s : ℚ → ℚ) (v0 v1 v2 : Vec3) : Vec3 :=
  let ux := v1.x - v0.x
  let uy := v1.y - v0.y
  let uz := v1.z - v0.z
  let vx := v2.x - v0.x
  let vy := v2.y - v0.y
  let vz := v2.z - v0.z
  let nx := uy * vz - uz * vy
  let ny := uz * vx - ux * vz
  let nz := ux * vy - uy * vx
  let len := s (nx * nx + ny * ny + nz * nz)
  if len > 1e-10 then ⟨nx / len, ny / len, nz / len⟩ else ⟨0, 0, 1⟩

/-- `Triangle::new`: stores the vertices and the derived normal. -/
def Triangle.new (s : ℚ → ℚ) (v0 v1 v2 : Vec3) : Triangle :=
  ⟨v0, v1, v2, calculate_normal s v0 v1 v2⟩

/-- `normalize` from `ribbon.rs` (`s` stands for `f32::sqrt`; the `(1, 0)`
fallback avoids NaN directions on zero-length vectors). -/
def normalize (s : ℚ → ℚ) (v : Pt) : Pt :=
  let len := s (v.1 * v.1 + v.2 * v.2)
  if len > 1e-10 then (v.1 / len, v.2 / len) else (1, 0)

/-- `direction` from `ribbon.rs`. -/
def direction (s : ℚ → ℚ) (p1 p2 : Pt) : Pt :=
  normalize s (p2.1 - p1.1, p2.2 - p1.2)

/-- The per-vertex rail pair (left, right) of the `edges` vector: tangent
toward the next point at the first vertex, from the previous point at the
last, miter-join average at interior vertices; rotated 90° and scaled by
`half_width` on each side. -/
def edgeAt (s : ℚ → ℚ) (half_width : ℚ) (points : List Pt) (i : ℕ) :
    Pt × Pt :=
  let p := points.getD i (0, 0)
  let d :=
    if i == 0 then direction s (points.getD 0 (0, 0)) (points.getD 1 (0, 0))
    else if i == points.length - 1 then
      direction s (points.getD (i - 1) (0, 0)) (points.getD i (0, 0))
    else
      let d1 := direction s (points.getD (i - 1) (0, 0)) (points.getD i (0, 0))
      let d2 := direction s (points.getD i (0, 0)) (points.getD (i + 1) (0, 0))
      normalize s ((d1.1 + d2.1) / 2, (d1.2 + d2.2) / 2)
  let px := -d.2
  let py := d.1
  ((p.1 - px * half_width, p.2 - py * half_width),
   (p.1 + px * half_width, p.2 + py * half_width))

/-- The 6 (or 8 with bottom) triangles of one segment, in the push order of
the source: top pair, bottom pair when `include_bottom`, left-side pair,
right-side pair. -/
def segmentTriangles (s : ℚ → ℚ) (base_z top_z : ℚ) (include_bottom : Bool)
    (e0 e1 : Pt × Pt) : List Triangle :=
  let l0 := e0.1
  let r0 := e0.2
  let l1 := e1.1
  let r1 := e1.2
  let tl0 : Vec3 := ⟨l0.1, l0.2, top_z⟩
  let tr0 : Vec3 := ⟨r0.1, r0.2, top_z⟩
  let tl1 : Vec3 := ⟨l1.1, l1.2, top_z⟩
  let tr1 : Vec3 := ⟨r1.1, r1.2, top_z⟩
  let bl0 : Vec3 := ⟨l0.1, l0.2, base_z⟩
  let br0 : Vec3 := ⟨r0.1, r0.2, base_z⟩
  let bl1 : Vec3 := ⟨l1.1, l1.2, base_z⟩
  let br1 : Vec3 := ⟨r1.1, r1.2, base_z⟩
  [Triangle.new s tl0 tr0 tr1, Triangle.new s tl0 tr1 tl1] ++
    (if include_bottom then
      [Triangle.new s bl0 br1 br0, Triangle.new s bl0 bl1 br1]
    else []) ++
    [Triangle.new s bl0 tl0 tl1, Triangle.new s bl0 tl1 bl1,
     Triangle.new s br0 tr1 tr0, Triangle.new s br0 br1 tr1]

/-- The 4 end-cap triangles (2 per cross-section) of the source's
`include_end_caps` block. -/
def capTriangles (s : ℚ → ℚ) (base_z top_z : ℚ) (edges : List (Pt × Pt)) :
    List Triangle :=
  let e0 := edges.headD ((0, 0), (0, 0))
  let l0 := e0.1
  let r0 := e0.2
  let e1 := edges.getLastD ((0, 0), (0, 0))
  let l1 := e1.1
  let r1 := e1.2
  [Triangle.new s ⟨l0.1, l0.2, base_z⟩ ⟨l0.1, l0.2, top_z⟩ ⟨r0.1, r0.2, top_z⟩,
   Triangle.new s ⟨l0.1, l0.2, base_z⟩ ⟨r0.1, r0.2, top_z⟩ ⟨r0.1, r0.2, base_z⟩,
   Triangle.new s ⟨l1.1, l1.2, base_z⟩ ⟨r1.1, r1.2, top_z⟩ ⟨l1.1, l1.2, top_z⟩,
   Triangle.new s ⟨l1.1, l1.2, base_z⟩ ⟨r1.1, r1.2, base_z⟩ ⟨r1.1, r1.2, top_z⟩]

/-- `extrude_ribbon_ex` from `ribbon.rs`: empty below 2 points, otherwise
one rail pair per input point, 6+2·bottom triangles per consecutive pair,
and 4 end-cap triangles when requested. -/
def extrude_ribbon_ex (s : ℚ → ℚ) (points : List Pt)
    (width height base_z : ℚ) (include_bottom include_end_caps : Bool) :
    List Triangle :=
  if points.length < 2 then []
  else
    let half_width := width / 2
    let top_z := base_z + height
    let edges := (List.range points.length).map (edgeAt s half_width points)
    let segs := (List.range (edges.length - 1)).flatMap fun i =>
      segmentTriangles s base_z top_z include_bottom
        (edges.getD i ((0, 0), (0, 0))) (edges.getD (i + 1) ((0, 0), (0, 0)))
    let caps :=
      if include_end_caps && !edges.isEmpty then
        capTriangles s base_z top_z edges
      else []
    segs ++ caps

/-- `extrude_ribbon`: both faces enabled. -/
def extrude_ribbon (s : ℚ → ℚ) (points : List Pt)
    (width height base_z : ℚ) : List Triangle :=
  extrude_ribbon_ex s points width height base_z true true

end Ribbon

/-! ## Polygon extrusion (`src/mesh/extrusion.rs`), the part C10 needs -/

namespace Extrusion

/-- The `all_points` buffer of `extrude_polygon`: outer-ring vertices
followed by every hole's vertices. -/
def all_points (outer : List Triangulation.Pt)
    (holes : List (List Triangulation.Pt)) : List Triangulation.Pt :=
  outer ++ holes.flatten

end Extrusion

/-! ## Mesh validation (`src/mesh/validation.rs`)

This module genuinely depends on square roots (triangle areas and unit
normals), so it is modelled over `ℝ` with `Real.sqrt` as the idealisation
of `f32::sqrt`.  The reals have no NaN/Inf, so the source's
`coord.is_finite()` checks hold of every value, which makes
`has_invalid_coords` the constant `False`. -/

namespace Validation

/-- A 3D vector, `[f32; 3]` in the source. -/
structure Vec3 where
  x : ℝ
  y : ℝ
  z : ℝ

/-- The `Triangle` struct (three vertices plus a stored normal). -/
structure Triangle where
  v0 : Vec3
  v1 : Vec3
  v2 : Vec3
  normal : Vec3

/-- Cross product of the two edge vectors `v1 − v0` and `v2 − v0`, shared
by `triangle_area` and `calculate_normal` in the source. -/
def crossOfEdges (v0 v1 v2 : Vec3) : Vec3 :=
  let eax := v1.x - v0.x
  let eay := v1.y - v0.y
  let eaz := v1.z - v0.z
  let ebx := v2.x - v0.x
  let eby := v2.y - v0.y
  let ebz := v2.z - v0.z
  ⟨eay * ebz - eaz * eby, eaz * ebx - eax * ebz, eax * eby - eay * ebx⟩

/-- Squared Euclidean norm, written with products as in the source. -/
def normSq (v : Vec3) : ℝ := v.x * v.x + v.y * v.y + v.z * v.z

/-- `triangle_area`: half the norm of the edge cross product. -/
noncomputable def triangle_area (v0 v1 v2 : Vec3) : ℝ :=
  0.5 * Real.sqrt (normSq (crossOfEdges v0 v1 v2))

/-- `MIN_TRIANGLE_AREA` from `validation.rs`. -/
noncomputable def MIN_TRIANGLE_AREA : ℝ := 1e-10

/-- `has_invalid_coords`: some vertex or normal component is NaN/Inf.  In
the real-number model every component is finite, so the check is the
constant `False`. -/
def has_invalid_coords (_t : Triangle) : Prop := False

/-- `is_degenerate`: area below the fixed threshold. -/
noncomputable def is_degenerate (t : Triangle) : Prop :=
  triangle_area t.v0 t.v1 t.v2 < MIN_TRIANGLE_AREA

/-- `is_normal_valid`: squared length finite (trivially so over `ℝ`) and
within `[0.99, 1.01]`. -/
def is_normal_valid (n : Vec3) : Prop :=
  0.99 ≤ normSq n ∧ normSq n ≤ 1.01

/-- `calculate_normal` from `validation.rs`: normalized edge cross product
with the `+Z` fallback for degenerate triangles. -/
noncomputable def calculate_normal (v0 v1 v2 : Vec3) : Vec3 :=
  let n := crossOfEdges v0 v1 v2
  let len := Real.sqrt (normSq n)
  if len > 1e-10 then ⟨n.x / len, n.y / len, n.z / len⟩ else ⟨0, 0, 1⟩

/-- `fix_normals`: unconditionally recompute every triangle's normal. -/
noncomputable def fix_normals (triangles : List Triangle) : List Triangle :=
  triangles.map fun t => { t with normal := calculate_normal t.v0 t.v1 t.v2 }

open Classical in
/-- `remove_degenerate`: keep the triangles that are neither invalid nor
degenerate. -/
noncomputable def remove_degenerate (triangles : List Triangle) :
    List Triangle :=
  triangles.filter fun t =>
    decide (¬ has_invalid_coords t ∧ ¬ is_degenerate t)

/-- The `ValidationResult` counts.  The `warnings` field of the source is
diagnostic text only and is omitted. -/
structure ValidationResult where
  total : ℕ
  degenerate : ℕ
  invalid_coords : ℕ
  invalid_normal : ℕ

open Classical in
/-- `validate_mesh`: the classification loop.  A triangle with invalid
coordinates is counted and skipped (`continue`), so the degenerate and
invalid-normal counts range over the coordinate-valid triangles only. -/
noncomputable def validate_mesh (triangles : List Triangle) :
    ValidationResult where
  total := triangles.length
  degenerate :=
    (triangles.filter fun t =>
      decide (¬ has_invalid_coords t ∧ is_degenerate t)).length
  invalid_coords :=
    (triangles.filter fun t => decide (has_invalid_coords t)).length
  invalid_normal :=
    (triangles.filter fun t =>
      decide (¬ has_invalid_coords t ∧ ¬ is_normal_valid t.normal)).length

/-- `validate_and_fix`: report on the input, then fix normals, then filter.
The report is computed before the normals are rewritten, as in the
source. -/
noncomputable def validate_and_fix (triangles : List Triangle) :
    List Triangle × ValidationResult :=
  (remove_degenerate (fix_normals triangles), validate_mesh triangles)

end Validation

end Mapto3d

namespace Mapto3d

/-! ## Theorems -/

namespace Projection

/-- C8: for every projector and every (lat, lon), `project` returns
`x = (lon − center_lon) · meters_per_lon_degree` and
`y = (lat − center_lat) · meters_per_lat_degree`; consequently projecting
the center point itself yields (0, 0) to within 1e-9 in each coordinate. -/
theorem projector_project_formula (p : Projector) (lat lon : ℚ) :
    p.project lat lon =
      ((lon - p.center_lon) * p.meters_per_lon_degree,
       (lat - p.center_lat) * p.meters_per_lat_degree) ∧
    |(p.project p.center_lat p.center_lon).1| ≤ 1e-9 ∧
    |(p.project p.center_lat p.center_lon).2| ≤ 1e-9 := by
  refine ⟨rfl, ?_, ?_⟩ <;>
    simp [Projector.project] <;> norm_num

end Projection

namespace Scaling

/-- C7: `Scaler` construction computes a single isotropic scale factor
`(target_size − bottom_margin) / max(width, height)`, taking 1.0 when that
maximum is not positive; for bounds spanning 10000×10000 m and target
size 220 with no margin the scale factor is within 0.001 of 0.022 and the
bounds' center (5000, 5000) maps within 1 unit of (110, 110). -/
theorem scaler_construction (b : Bounds) (t m : ℚ) :
    (max b.width b.height ≤ 0 →
      (Scaler.from_bounds_with_margin b t m).scale = 1) ∧
    (0 < max b.width b.height →
      (Scaler.from_bounds_with_margin b t m).scale =
        (t - m) / max b.width b.height) ∧
    |(Scaler.from_bounds_with_margin ⟨0, 10000, 0, 10000⟩ 220 0).scale -
        22/1000| < 1/1000 ∧
    |((Scaler.from_bounds_with_margin ⟨0, 10000, 0, 10000⟩ 220 0).scale_point
        5000 5000).1 - 110| ≤ 1 ∧
    |((Scaler.from_bounds_with_margin ⟨0, 10000, 0, 10000⟩ 220 0).scale_point
        5000 5000).2 - 110| ≤ 1 := by
  refine ⟨?_, ?_, ?_, ?_, ?_⟩
  · intro h
    simp only [Scaler.from_bounds_with_margin]
    rw [if_neg (by exact not_lt.mpr h)]
  · intro h
    simp only [Scaler.from_bounds_with_margin]
    rw [if_pos h]
  · norm_num [Scaler.from_bounds_with_margin, Bounds.width, Bounds.height]
  · norm_num [Scaler.from_bounds_with_margin, Scaler.scale_point,
      Bounds.width, Bounds.height]
  · norm_num [Scaler.from_bounds_with_margin, Scaler.scale_point,
      Bounds.width, Bounds.height]

/-- Witness for C7: at the concrete 10000×10000 bounds the maximum extent is
positive and the theorem's positive branch gives the exact scale factor. -/
theorem scaler_construction_witness :
    (0 : ℚ) <
      max (Bounds.width ⟨0, 10000, 0, 10000⟩)
        (Bounds.height ⟨0, 10000, 0, 10000⟩) ∧
    (Scaler.from_bounds_with_margin ⟨0, 10000, 0, 10000⟩ 220 0).scale =
      (220 - 0) /
        max (Bounds.width ⟨0, 10000, 0, 10000⟩)
          (Bounds.height ⟨0, 10000, 0, 10000⟩) :=
  ⟨by norm_num [Bounds.width, Bounds.height],
   (scaler_construction ⟨0, 10000, 0, 10000⟩ 220 0).2.1
     (by norm_num [Bounds.width, Bounds.height])⟩

end Scaling

namespace Simplify

/-- Larger tolerance never keeps a deviation a smaller tolerance discards. -/
theorem exceeds_antitone {d2 e1 e2 : ℚ} (h : e1 ≤ e2)
    (h2 : exceeds d2 e2 = true) : exceeds d2 e1 = true := by
  simp only [exceeds, Bool.or_eq_true, decide_eq_true_eq] at h2 ⊢
  rcases h2 with h2 | h2
  · exact Or.inl (lt_of_le_of_lt h h2)
  · by_cases h1 : e1 < 0
    · exact Or.inl h1
    · exact Or.inr (lt_of_le_of_lt (pow_le_pow_left₀ (not_lt.mp h1) h 2) h2)

/-- Douglas-Peucker always returns at least the two anchors. -/
theorem dpFuel_two_le (fuel : ℕ) (a : Pt) (mid : List Pt) (b : Pt) (eps : ℚ) :
    2 ≤ (dpFuel fuel a mid b eps).length := by
  induction fuel generalizing a mid b with
  | zero => simp [dpFuel]
  | succ n ih =>
    simp only [dpFuel]
    cases hs : splitAtMax a b mid with
    | none => simp
    | some x =>
      obtain ⟨l, q, r⟩ := x
      dsimp only
      by_cases he : exceeds (perpDevSq a b q) eps
      · rw [if_pos he]
        have h1 := ih a l q
        have h2 := ih q r b
        simp only [List.length_append, List.length_tail]
        omega
      · rw [if_neg he]
        simp

/-- Core antitonicity of the Douglas-Peucker recursion in the tolerance. -/
theorem dpFuel_antitone {e1 e2 : ℚ} (h : e1 ≤ e2) (fuel : ℕ) (a : Pt)
    (mid : List Pt) (b : Pt) :
    (dpFuel fuel a mid b e2).length ≤ (dpFuel fuel a mid b e1).length := by
  induction fuel generalizing a mid b with
  | zero => exact le_refl _
  | succ n ih =>
    simp only [dpFuel]
    cases hs : splitAtMax a b mid with
    | none => exact le_refl _
    | some x =>
      obtain ⟨l, q, r⟩ := x
      dsimp only
      by_cases he2 : exceeds (perpDevSq a b q) e2
      · rw [if_pos he2, if_pos (exceeds_antitone h he2)]
        simp only [List.length_append, List.length_tail]
        exact Nat.add_le_add (ih a l q) (Nat.sub_le_sub_right (ih q r b) 1)
      · rw [if_neg he2]
        by_cases he1 : exceeds (perpDevSq a b q) e1
        · rw [if_pos he1]
          have h1 := dpFuel_two_le n a l q e1
          have h2 := dpFuel_two_le n q r b e1
          simp only [List.length_append, List.length_tail, List.length_cons,
            List.length_nil]
          omega
        · rw [if_neg he1]

/-- Antitonicity lifted to whole polylines. -/
theorem rdp_antitone {e1 e2 : ℚ} (h : e1 ≤ e2) (ps : List Pt) :
    (rdp ps e2).length ≤ (rdp ps e1).length := by
  match ps with
  | [] => exact le_refl _
  | [p] => exact le_refl _
  | a :: b :: rest =>
    simp only [rdp]
    exact dpFuel_antitone h _ _ _ _

/-- C6: simplification is antitone in the tolerance: for every polyline and
tolerances ε₁ < ε₂, `simplify_polyline` with ε₂ never returns more points
than with ε₁ on the same input. -/
theorem simplify_polyline_antitone (points : List Pt) (e1 e2 : ℚ)
    (h : e1 < e2) :
    (simplify_polyline points e2).length ≤
      (simplify_polyline points e1).length := by
  unfold simplify_polyline
  by_cases hl : points.length < 4
  · rw [if_pos hl, if_pos hl]
  · rw [if_neg hl, if_neg hl, List.length_map, List.length_map]
    exact rdp_antitone (le_of_lt h) _

/-- Witness for C6: a concrete polyline and tolerance pair 0 < 1. -/
theorem simplify_polyline_antitone_witness :
    (0 : ℚ) < 1 ∧
    (simplify_polyline [(0, 0), (0, 1), (0, 2), (0, 3)] 1).length ≤
      (simplify_polyline [(0, 0), (0, 1), (0, 2), (0, 3)] 0).length :=
  ⟨by norm_num,
   simplify_polyline_antitone [(0, 0), (0, 1), (0, 2), (0, 3)] 0 1
     (by norm_num)⟩

/-- C9: polylines of fewer than 4 points are returned unchanged; rings of
fewer than 5 points are returned unchanged by `simplify_polygon`; and
whenever the simplified ring would have fewer than 4 points,
`simplify_polygon` returns the original ring. -/
theorem simplify_short_inputs :
    (∀ (ps : List Pt) (e : ℚ), ps.length < 4 → simplify_polyline ps e = ps) ∧
    (∀ (ring : List Pt) (e : ℚ), ring.length < 5 →
      simplify_polygon ring e = ring) ∧
    (∀ (ring : List Pt) (e : ℚ), (simplify_polyline ring e).length < 4 →
      simplify_polygon ring e = ring) := by
  refine ⟨?_, ?_, ?_⟩
  · intro ps e h
    simp [simplify_polyline, h]
  · intro ring e h
    simp [simplify_polygon, h]
  · intro ring e h
    by_cases h5 : ring.length < 5
    · simp [simplify_polygon, h5]
    · simp [simplify_polygon, h5, h]

/-- Witness for C9: a 1-point polyline is returned unchanged, and a 5-point
collinear ring whose simplification collapses to 2 points is reverted to
the original ring. -/
theorem simplify_short_inputs_witness :
    (([((0 : ℚ), (0 : ℚ))]).length < 4 ∧
      simplify_polyline [(0, 0)] 1 = [(0, 0)]) ∧
    ((simplify_polyline [(0, 0), (1, 0), (2, 0), (3, 0), (4, 0)] 2).length < 4 ∧
      simplify_polygon [(0, 0), (1, 0), (2, 0), (3, 0), (4, 0)] 2 =
        [(0, 0), (1, 0), (2, 0), (3, 0), (4, 0)]) := by
  have h1 : ([((0 : ℚ), (0 : ℚ))]).length < 4 := by simp
  have h2 :
      (simplify_polyline [(0, 0), (1, 0), (2, 0), (3, 0), (4, 0)] 2).length < 4 := by
    norm_num [simplify_polyline, rdp, dpFuel, splitAtMax, perpDevSq, sqDist,
      exceeds, swap, List.dropLast, Prod.mk.injEq, Prod.ext_iff]
  exact ⟨⟨h1, simplify_short_inputs.1 [(0, 0)] 1 h1⟩,
    ⟨h2, simplify_short_inputs.2.2 [(0, 0), (1, 0), (2, 0), (3, 0), (4, 0)] 2 h2⟩⟩

end Simplify

namespace Triangulation

/-- Looking up below the length stays inside the list. -/
theorem getD_mem_of_lt {l : List ℕ} {i : ℕ} (d : ℕ) (h : i < l.length) :
    l.getD i d ∈ l := by
  induction l generalizing i with
  | nil => simp at h
  | cons a t ih =>
    cases i with
    | zero => simp
    | succ k =>
      simp only [List.getD_cons_succ]
      exact List.mem_cons_of_mem a (ih (by simpa using h))

/-- Ear clipping always emits whole index triples. -/
theorem clipLoop_length_mod (vs : List Pt) (fuel : ℕ) (idxs : List ℕ) :
    (clipLoop vs fuel idxs).length % 3 = 0 := by
  induction fuel generalizing idxs with
  | zero => simp [clipLoop]
  | succ n ih =>
    simp only [clipLoop]
    by_cases h3 : idxs.length < 3
    · rw [if_pos h3]; simp
    · rw [if_neg h3]
      by_cases he : idxs.length == 3
      · rw [if_pos he]
        have h3' : idxs.length = 3 := by simpa using he
        simp [h3']
      · rw [if_neg he]
        cases hf : findEar vs idxs with
        | none => simp
        | some j =>
          dsimp only
          have := ih (idxs.eraseIdx j)
          simp only [List.length_cons]
          omega

/-- Every index ear clipping emits was already in the starting cycle, hence
stays below any bound the cycle satisfies. -/
theorem clipLoop_mem_lt (vs : List Pt) (N : ℕ) (fuel : ℕ) (idxs : List ℕ)
    (hinv : ∀ i ∈ idxs, i < N) : ∀ i ∈ clipLoop vs fuel idxs, i < N := by
  induction fuel generalizing idxs with
  | zero => simp [clipLoop]
  | succ n ih =>
    intro i hi
    simp only [clipLoop] at hi
    by_cases h3 : idxs.length < 3
    · rw [if_pos h3] at hi; simp at hi
    · rw [if_neg h3] at hi
      by_cases he : idxs.length == 3
      · rw [if_pos he] at hi
        exact hinv i hi
      · rw [if_neg he] at hi
        cases hf : findEar vs idxs with
        | none => rw [hf] at hi; simp at hi
        | some j =>
          rw [hf] at hi
          dsimp only at hi
          have hj : j < idxs.length :=
            List.mem_range.mp (List.mem_of_find?_eq_some hf)
          have hn : 0 < idxs.length := by omega
          rcases List.mem_cons.mp hi with h | hi
          · exact h ▸ hinv _ (getD_mem_of_lt 0 (Nat.mod_lt _ hn))
          rcases List.mem_cons.mp hi with h | hi
          · exact h ▸ hinv _ (getD_mem_of_lt 0 hj)
          rcases List.mem_cons.mp hi with h | hi
          · exact h ▸ hinv _ (getD_mem_of_lt 0 (Nat.mod_lt _ hn))
          · exact ih (idxs.eraseIdx j)
              (fun k hk => hinv k (List.eraseIdx_subset idxs j hk)) i hi

/-- Indices produced by the modelled `earcut` are bounded by the buffer
length, given consistent hole starts. -/
theorem earcut_mem_lt (vs : List Pt) (holeIdx : List ℕ)
    (hh : ∀ h ∈ holeIdx, h ≤ vs.length) :
    ∀ i ∈ earcut vs holeIdx, i < vs.length := by
  intro i hi
  have hOL : holeIdx.headD vs.length ≤ vs.length := by
    cases holeIdx with
    | nil => simp
    | cons h t => simpa using hh h (by simp)
  simp only [earcut] at hi
  refine clipLoop_mem_lt vs vs.length _ _ ?_ i hi
  intro k hk
  by_cases hccw : signedAreaDoubled (vs.take (holeIdx.headD vs.length)) < 0
  · rw [if_pos hccw] at hk
    exact lt_of_lt_of_le (List.mem_range.mp (List.mem_reverse.mp hk)) hOL
  · rw [if_neg hccw] at hk
    exact lt_of_lt_of_le (List.mem_range.mp hk) hOL

/-- The combined buffer the source builds is the outer ring followed by all
hole vertices. -/
theorem foldl_buffer_fst (holes : List (List Pt)) (vsAcc : List Pt)
    (hIdx : List ℕ) :
    (holes.foldl (fun acc hole => (acc.1 ++ hole, acc.2 ++ [acc.1.length]))
      (vsAcc, hIdx)).1 = vsAcc ++ holes.flatten := by
  induction holes generalizing vsAcc hIdx with
  | nil => simp
  | cons h t ih => simp [ih, List.append_assoc]

/-- Each recorded hole start is at most the final buffer length. -/
theorem foldl_buffer_snd_le (holes : List (List Pt)) (vsAcc : List Pt)
    (hIdx : List ℕ) (hinv : ∀ x ∈ hIdx, x ≤ vsAcc.length) :
    ∀ x ∈ (holes.foldl
        (fun acc hole => (acc.1 ++ hole, acc.2 ++ [acc.1.length]))
        (vsAcc, hIdx)).2,
      x ≤ (holes.foldl
        (fun acc hole => (acc.1 ++ hole, acc.2 ++ [acc.1.length]))
        (vsAcc, hIdx)).1.length := by
  induction holes generalizing vsAcc hIdx with
  | nil => simpa using hinv
  | cons h t ih =>
    simp only [List.foldl_cons]
    apply ih
    intro x hx
    rcases List.mem_append.mp hx with hx | hx
    · exact le_trans (hinv x hx) (by simp)
    · simp only [List.mem_singleton] at hx
      subst hx
      simp

/-- C5: `triangulate_polygon` returns an empty index list when the outer
ring has fewer than 3 vertices; every returned index list has length
divisible by 3; and the unit square with no holes yields exactly 6 indices
(2 triangles). -/
theorem triangulate_polygon_contract :
    (∀ (outer : List Pt) (holes : List (List Pt)), outer.length < 3 →
      triangulate_polygon outer holes = []) ∧
    (∀ (outer : List Pt) (holes : List (List Pt)),
      (triangulate_polygon outer holes).length % 3 = 0) ∧
    (triangulate_polygon [(0, 0), (1, 0), (1, 1), (0, 1)] []).length = 6 := by
  refine ⟨?_, ?_, ?_⟩
  · intro outer holes h
    simp [triangulate_polygon, h]
  · intro outer holes
    by_cases h3 : outer.length < 3
    · simp [triangulate_polygon, h3]
    · simp only [triangulate_polygon, if_neg h3, earcut]
      exact clipLoop_length_mod _ _ _
  · have hev :
        triangulate_polygon [(0, 0), (1, 0), (1, 1), (0, 1)] [] =
          [3, 0, 1, 1, 2, 3] := by
      norm_num [triangulate_polygon, earcut, clipLoop, findEar, isEar,
        strictlyInside, cross2, vtx, signedAreaDoubled, List.range_succ,
        List.find?, List.all_cons, Prod.mk.injEq, List.eraseIdx]
    rw [hev]
    rfl

/-- Witness for C5: a 1-point outer ring triggers the early-return branch. -/
theorem triangulate_polygon_contract_witness :
    ([((0 : ℚ), (0 : ℚ))]).length < 3 ∧
      triangulate_polygon [(0, 0)] [] = [] :=
  ⟨by simp, triangulate_polygon_contract.1 [(0, 0)] [] (by simp)⟩

/-- C10: every index returned by `triangulate_polygon` is strictly below
the length of the `all_points` buffer (outer ring plus all holes) that
`extrude_polygon` indexes into, so its vertex lookups are in bounds. -/
theorem triangulate_polygon_indices_in_bounds (outer : List Pt)
    (holes : List (List Pt)) (i : ℕ)
    (hi : i ∈ triangulate_polygon outer holes) :
    i < (Extrusion.all_points outer holes).length := by
  unfold triangulate_polygon at hi
  by_cases h3 : outer.length < 3
  · rw [if_pos h3] at hi; simp at hi
  · rw [if_neg h3] at hi
    dsimp only at hi
    have hb := earcut_mem_lt _ _
      (foldl_buffer_snd_le holes outer [] (by simp)) i hi
    rw [foldl_buffer_fst] at hb
    simpa [Extrusion.all_points] using hb

/-- Witness for C10: index 3 is produced for the unit square and is below
the 4-point buffer length. -/
theorem triangulate_polygon_indices_in_bounds_witness :
    (3 ∈ triangulate_polygon [(0, 0), (1, 0), (1, 1), (0, 1)] []) ∧
      3 < (Extrusion.all_points [(0, 0), (1, 0), (1, 1), (0, 1)] []).length := by
  have hev :
      triangulate_polygon [(0, 0), (1, 0), (1, 1), (0, 1)] [] =
        [3, 0, 1, 1, 2, 3] := by
    norm_num [triangulate_polygon, earcut, clipLoop, findEar, isEar,
      strictlyInside, cross2, vtx, signedAreaDoubled, List.range_succ,
      List.find?, List.all_cons, Prod.mk.injEq, List.eraseIdx]
  have hm : 3 ∈ triangulate_polygon [(0, 0), (1, 0), (1, 1), (0, 1)] [] := by
    rw [hev]; simp
  exact ⟨hm,
    triangulate_polygon_indices_in_bounds [(0, 0), (1, 0), (1, 1), (0, 1)] []
      3 hm⟩

end Triangulation

namespace Ribbon

/-- One segment contributes 6 triangles, 8 with the bottom pair. -/
theorem segmentTriangles_length (s : ℚ → ℚ) (base_z top_z : ℚ)
    (include_bottom : Bool) (e0 e1 : Pt × Pt) :
    (segmentTriangles s base_z top_z include_bottom e0 e1).length =
      if include_bottom then 8 else 6 := by
  cases include_bottom <;> rfl

/-- Concatenating a constant-length family over `range k` gives `k * c`
elements. -/
theorem length_flatMap_range_const {α : Type} (k c : ℕ) (f : ℕ → List α)
    (hf : ∀ i, (f i).length = c) :
    ((List.range k).flatMap f).length = k * c := by
  induction k with
  | zero => simp
  | succ n ih =>
    rw [List.range_succ]
    simp only [List.flatMap_append, List.length_append, ih]
    simp [hf n, Nat.succ_mul]

/-- C3 (amended): each consecutive pair of rail points contributes 6
triangles for the top, left-side and right-side faces (2 each), so with
`include_bottom = false` and `include_end_caps = false` a polyline of
N ≥ 2 points extrudes to exactly 6·(N−1) triangles. -/
theorem extrude_ribbon_no_bottom_no_caps_count (s : ℚ → ℚ)
    (w h z : ℚ) (points : List Pt) (hlen : 2 ≤ points.length) :
    (extrude_ribbon_ex s points w h z false false).length =
      6 * (points.length - 1) := by
  unfold extrude_ribbon_ex
  rw [if_neg (by omega)]
  dsimp only
  rw [List.length_append,
    length_flatMap_range_const _ 6 _
      (fun i => by simp [segmentTriangles_length])]
  simp [List.length_map, List.length_range, Nat.mul_comm]

/-- Witness for C3's amended count: a concrete 3-point polyline extrudes to
6·2 = 12 triangles without bottom and caps. -/
theorem extrude_ribbon_no_bottom_no_caps_count_witness :
    2 ≤ ([((0 : ℚ), (0 : ℚ)), (10, 0), (20, 5)] : List Pt).length ∧
    (extrude_ribbon_ex (fun a => a) [(0, 0), (10, 0), (20, 5)] 2 1 0
        false false).length =
      6 * (([((0 : ℚ), (0 : ℚ)), (10, 0), (20, 5)] : List Pt).length - 1) :=
  ⟨by simp,
   extrude_ribbon_no_bottom_no_caps_count (fun a => a) 2 1 0
     [(0, 0), (10, 0), (20, 5)] (by simp)⟩

/-- Counterexample to C3 as stated: a 2-point polyline with neither bottom
nor end caps yields 6 triangles, not 8·(N−1) = 8. -/
theorem extrude_ribbon_eight_per_segment_counterexample :
    (extrude_ribbon_ex (fun a => a) [(0, 0), (10, 0)] 2 1 0
        false false).length ≠ 8 * (2 - 1) := by
  decide

/-- C4: a 2-point polyline extrudes to exactly 12 triangles with bottom and
end caps, 10 with end caps but no bottom, 8 with bottom but no end caps;
and any input of fewer than 2 points yields an empty triangle list. -/
theorem extrude_ribbon_two_point_counts (s : ℚ → ℚ) (w h z : ℚ)
    (p q : Pt) :
    (extrude_ribbon_ex s [p, q] w h z true true).length = 12 ∧
    (extrude_ribbon_ex s [p, q] w h z false true).length = 10 ∧
    (extrude_ribbon_ex s [p, q] w h z true false).length = 8 ∧
    ∀ (points : List Pt) (b c : Bool), points.length < 2 →
      extrude_ribbon_ex s points w h z b c = [] := by
  refine ⟨rfl, rfl, rfl, ?_⟩
  intro points b c hlt
  unfold extrude_ribbon_ex
  rw [if_pos hlt]

/-- Witness for C4: the empty polyline is below 2 points and maps to the
empty mesh; the straight 2-point segment (0,0)–(10,0) gives 12 triangles. -/
theorem extrude_ribbon_two_point_counts_witness :
    (([] : List Pt).length < 2 ∧
      extrude_ribbon_ex (fun a => a) [] 2 1 0 true true = []) ∧
    (extrude_ribbon_ex (fun a => a) [((0 : ℚ), (0 : ℚ)), (10, 0)] 2 1 0
        true true).length = 12 :=
  ⟨⟨by simp,
    (extrude_ribbon_two_point_counts (fun a => a) 2 1 0 (0, 0)
        (10, 0)).2.2.2 [] true true (by simp)⟩,
   (extrude_ribbon_two_point_counts (fun a => a) 2 1 0 (0, 0) (10, 0)).1⟩

end Ribbon

namespace Validation

open Classical

/-- Membership in the filtered mesh gives the filter's guarantees. -/
theorem mem_remove_degenerate {ts : List Triangle} {t : Triangle}
    (h : t ∈ remove_degenerate ts) :
    t ∈ ts ∧ ¬ has_invalid_coords t ∧ ¬ is_degenerate t := by
  have hm := List.mem_filter.mp h
  exact ⟨hm.1, of_decide_eq_true hm.2⟩

/-- After `fix_normals`, every triangle's stored normal is the recomputed
one. -/
theorem mem_fix_normals {ts : List Triangle} {t : Triangle}
    (h : t ∈ fix_normals ts) :
    t.normal = calculate_normal t.v0 t.v1 t.v2 := by
  obtain ⟨t', _, rfl⟩ := List.mem_map.mp h
  rfl

/-- Squared norms are nonnegative. -/
theorem normSq_nonneg (v : Vec3) : 0 ≤ normSq v :=
  add_nonneg (add_nonneg (mul_self_nonneg _) (mul_self_nonneg _))
    (mul_self_nonneg _)

/-- When the cross product is long enough, `calculate_normal` takes the
normalizing branch. -/
theorem calculate_normal_of_large {v0 v1 v2 : Vec3}
    (h : Real.sqrt (normSq (crossOfEdges v0 v1 v2)) > 1e-10) :
    calculate_normal v0 v1 v2 =
      ⟨(crossOfEdges v0 v1 v2).x / Real.sqrt (normSq (crossOfEdges v0 v1 v2)),
       (crossOfEdges v0 v1 v2).y / Real.sqrt (normSq (crossOfEdges v0 v1 v2)),
       (crossOfEdges v0 v1 v2).z / Real.sqrt (normSq (crossOfEdges v0 v1 v2))⟩ := by
  unfold calculate_normal
  rw [if_pos h]

/-- Changing only the stored normal does not change degeneracy, which is a
function of the vertices alone. -/
theorem is_degenerate_fix (t : Triangle) :
    is_degenerate { t with normal := calculate_normal t.v0 t.v1 t.v2 } ↔
      is_degenerate t := Iff.rfl

/-- C1: every triangle of the cleaned mesh returned by `validate_and_fix`
has (trivially) finite components, area at least 1e-10, and a stored
normal equal to the normalized cross product of its edge vectors, hence of
unit squared length. -/
theorem validate_and_fix_invariant (m : List Triangle) (t : Triangle)
    (ht : t ∈ (validate_and_fix m).1) :
    ¬ has_invalid_coords t ∧
    (1e-10 : ℝ) ≤ triangle_area t.v0 t.v1 t.v2 ∧
    t.normal =
      ⟨(crossOfEdges t.v0 t.v1 t.v2).x /
          Real.sqrt (normSq (crossOfEdges t.v0 t.v1 t.v2)),
       (crossOfEdges t.v0 t.v1 t.v2).y /
          Real.sqrt (normSq (crossOfEdges t.v0 t.v1 t.v2)),
       (crossOfEdges t.v0 t.v1 t.v2).z /
          Real.sqrt (normSq (crossOfEdges t.v0 t.v1 t.v2))⟩ ∧
    normSq t.normal = 1 := by
  have ht' : t ∈ remove_degenerate (fix_normals m) := ht
  obtain ⟨htm, hinv, hdeg⟩ := mem_remove_degenerate ht'
  have hn := mem_fix_normals htm
  have harea : (1e-10 : ℝ) ≤ triangle_area t.v0 t.v1 t.v2 := by
    unfold is_degenerate MIN_TRIANGLE_AREA at hdeg
    exact not_lt.mp hdeg
  have harea' :
      (1e-10 : ℝ) ≤
        0.5 * Real.sqrt (normSq (crossOfEdges t.v0 t.v1 t.v2)) := harea
  have hlen : Real.sqrt (normSq (crossOfEdges t.v0 t.v1 t.v2)) > 1e-10 := by
    nlinarith [harea']
  have hnormal := hn.trans (calculate_normal_of_large hlen)
  refine ⟨hinv, harea, hnormal, ?_⟩
  rw [hnormal]
  have hS : 0 ≤ normSq (crossOfEdges t.v0 t.v1 t.v2) :=
    normSq_nonneg (crossOfEdges t.v0 t.v1 t.v2)
  have hlenpos : 0 < Real.sqrt (normSq (crossOfEdges t.v0 t.v1 t.v2)) :=
    lt_trans (by norm_num) hlen
  have hlensq :
      Real.sqrt (normSq (crossOfEdges t.v0 t.v1 t.v2)) *
          Real.sqrt (normSq (crossOfEdges t.v0 t.v1 t.v2)) =
        normSq (crossOfEdges t.v0 t.v1 t.v2) := Real.mul_self_sqrt hS
  have hSpos : 0 < normSq (crossOfEdges t.v0 t.v1 t.v2) := by
    rw [← hlensq]
    exact mul_pos hlenpos hlenpos
  show (crossOfEdges t.v0 t.v1 t.v2).x / _ * _ + _ + _ = 1
  rw [div_mul_div_comm, div_mul_div_comm, div_mul_div_comm,
    div_add_div_same, div_add_div_same, hlensq]
  exact div_self (ne_of_gt hSpos)

/-- Witness for C1: the unit right triangle in the XY plane survives
validation and satisfies the invariant. -/
theorem validate_and_fix_invariant_witness :
    ((⟨⟨0, 0, 0⟩, ⟨1, 0, 0⟩, ⟨0, 1, 0⟩, ⟨0, 0, 1⟩⟩ : Triangle) ∈
      (validate_and_fix
        [⟨⟨0, 0, 0⟩, ⟨1, 0, 0⟩, ⟨0, 1, 0⟩, ⟨0, 0, 1⟩⟩]).1) ∧
    (¬ has_invalid_coords
        (⟨⟨0, 0, 0⟩, ⟨1, 0, 0⟩, ⟨0, 1, 0⟩, ⟨0, 0, 1⟩⟩ : Triangle) ∧
     (1e-10 : ℝ) ≤ triangle_area ⟨0, 0, 0⟩ ⟨1, 0, 0⟩ ⟨0, 1, 0⟩ ∧
     (⟨0, 0, 1⟩ : Vec3) =
       ⟨(crossOfEdges ⟨0, 0, 0⟩ ⟨1, 0, 0⟩ ⟨0, 1, 0⟩).x /
           Real.sqrt (normSq (crossOfEdges ⟨0, 0, 0⟩ ⟨1, 0, 0⟩ ⟨0, 1, 0⟩)),
        (crossOfEdges ⟨0, 0, 0⟩ ⟨1, 0, 0⟩ ⟨0, 1, 0⟩).y /
           Real.sqrt (normSq (crossOfEdges ⟨0, 0, 0⟩ ⟨1, 0, 0⟩ ⟨0, 1, 0⟩)),
        (crossOfEdges ⟨0, 0, 0⟩ ⟨1, 0, 0⟩ ⟨0, 1, 0⟩).z /
           Real.sqrt (normSq (crossOfEdges ⟨0, 0, 0⟩ ⟨1, 0, 0⟩ ⟨0, 1, 0⟩))⟩ ∧
     normSq (⟨0, 0, 1⟩ : Vec3) = 1) := by
  have hcross :
      crossOfEdges ⟨0, 0, 0⟩ ⟨1, 0, 0⟩ ⟨0, 1, 0⟩ = (⟨0, 0, 1⟩ : Vec3) := by
    unfold crossOfEdges
    norm_num
  have hS : normSq (⟨0, 0, 1⟩ : Vec3) = 1 := by
    unfold normSq
    norm_num
  have hlen1 :
      Real.sqrt (normSq (crossOfEdges ⟨0, 0, 0⟩ ⟨1, 0, 0⟩ ⟨0, 1, 0⟩)) >
        1e-10 := by
    rw [hcross, hS, Real.sqrt_one]
    norm_num
  have hcn :
      calculate_normal ⟨0, 0, 0⟩ ⟨1, 0, 0⟩ ⟨0, 1, 0⟩ = (⟨0, 0, 1⟩ : Vec3) := by
    rw [calculate_normal_of_large hlen1, hcross, hS, Real.sqrt_one]
    norm_num
  have hfix :
      fix_normals [⟨⟨0, 0, 0⟩, ⟨1, 0, 0⟩, ⟨0, 1, 0⟩, ⟨0, 0, 1⟩⟩] =
        [⟨⟨0, 0, 0⟩, ⟨1, 0, 0⟩, ⟨0, 1, 0⟩, ⟨0, 0, 1⟩⟩] := by
    unfold fix_normals
    rw [List.map_singleton, hcn]
  have hkeep :
      (¬ has_invalid_coords
          (⟨⟨0, 0, 0⟩, ⟨1, 0, 0⟩, ⟨0, 1, 0⟩, ⟨0, 0, 1⟩⟩ : Triangle) ∧
        ¬ is_degenerate
          (⟨⟨0, 0, 0⟩, ⟨1, 0, 0⟩, ⟨0, 1, 0⟩, ⟨0, 0, 1⟩⟩ : Triangle)) := by
    refine ⟨not_false, ?_⟩
    unfold is_degenerate triangle_area MIN_TRIANGLE_AREA
    rw [hcross, hS, Real.sqrt_one]
    norm_num
  have hmem :
      (⟨⟨0, 0, 0⟩, ⟨1, 0, 0⟩, ⟨0, 1, 0⟩, ⟨0, 0, 1⟩⟩ : Triangle) ∈
        (validate_and_fix
          [⟨⟨0, 0, 0⟩, ⟨1, 0, 0⟩, ⟨0, 1, 0⟩, ⟨0, 0, 1⟩⟩]).1 := by
    show _ ∈ remove_degenerate (fix_normals _)
    rw [hfix]
    exact List.mem_filter.mpr ⟨List.mem_singleton_self _, decide_eq_true hkeep⟩
  have hconc := validate_and_fix_invariant _ _ hmem
  exact ⟨hmem, hconc⟩

/-- C2: `validate_and_fix` is idempotent: re-running it on its own cleaned
output keeps the triangle count and reports zero degenerate and zero
invalid-coordinate triangles. -/
theorem validate_and_fix_idempotent (m : List Triangle) :
    ((validate_and_fix (validate_and_fix m).1).1).length =
      ((validate_and_fix m).1).length ∧
    (validate_and_fix (validate_and_fix m).1).2.degenerate = 0 ∧
    (validate_and_fix (validate_and_fix m).1).2.invalid_coords = 0 := by
  have hclean : ∀ t ∈ (validate_and_fix m).1,
      ¬ has_invalid_coords t ∧ ¬ is_degenerate t := by
    intro t ht
    exact (mem_remove_degenerate ht).2
  refine ⟨?_, ?_, ?_⟩
  · show (remove_degenerate (fix_normals (validate_and_fix m).1)).length = _
    have hall :
        remove_degenerate (fix_normals (validate_and_fix m).1) =
          fix_normals (validate_and_fix m).1 := by
      apply List.filter_eq_self.mpr
      intro t ht
      obtain ⟨t', ht', rfl⟩ := List.mem_map.mp ht
      exact decide_eq_true ⟨not_false, (hclean t' ht').2⟩
    rw [hall]
    simp [fix_normals]
  · show (validate_mesh (validate_and_fix m).1).degenerate = 0
    unfold validate_mesh
    dsimp only
    rw [List.length_eq_zero]
    apply List.filter_eq_nil_iff.mpr
    intro t ht hdec
    exact (hclean t ht).2 (of_decide_eq_true hdec).2
  · show (validate_mesh (validate_and_fix m).1).invalid_coords = 0
    unfold validate_mesh
    dsimp only
    rw [List.length_eq_zero]
    apply List.filter_eq_nil_iff.mpr
    intro t ht hdec
    exact (hclean t ht).1 (of_decide_eq_true hdec)

end Validation

end Mapto3d
